import Mathlib

/-!
Verification development for the CodeBase-QA-Agent retrieval pipeline.

Each namespace below is a shallow embedding of one module of the repository:

* `RAG`      — `backend/app/services/rag.py` (`RAGService.validate_answer`).
* `EmbedSvc` — `backend/app/services/embedding.py`
  (`EmbeddingService._initialize_embedding_service`, `_mock_embedding`).
* `MockEmbed`— the deterministic mock vectors of
  `backend/app/services/embedding.py` and `backend/app/core/embeddings.py`.
* `Chunking` — `backend/app/core/chunking.py` (`chunk_file`).
* `VS1`      — the FAISS + SQLite `VectorStore`
  (`backend/app/core/vector_store.py`, metadata-database variant).
* `VS2`      — the FAISS + pickled-chunk-list `VectorStore`
  (`backend/app/core/vector_store.py`, top-level variant).
* `Snip`     — `backend/app/services/snippets.py`
  (`_safe_repo_path`, `extract_snippet`).

Python strings are modelled as Lean `String`, Python `int` as `Int` (or `Nat`
where the source only ever holds non-negative counts), Python `float` as `Rat`
(the float values taken by the code here are exact small rationals; rounding is
irrelevant to every property proved).  External libraries (hashlib, tiktoken,
numpy's RNG, the filesystem) enter as explicit parameters.
-/

namespace CodeQA

/-! Shared helpers: substring containment, the model of Python's `in`. -/

/-- Whether `needle` is a leading run of `hay` (model of `str.startswith`,
element by element). -/
def leadsWith {α : Type} [DecidableEq α] : List α → List α → Bool
  | [], _ => true
  | _ :: _, [] => false
  | a :: as, b :: bs => a = b && leadsWith as bs

/-- Whether `needle` occurs contiguously inside `hay` at any position. -/
def hasSubAux (needle : List Char) : List Char → Bool
  | [] => leadsWith needle []
  | c :: t => leadsWith needle (c :: t) || hasSubAux needle t

/-- Model of Python's `needle in hay` on strings. -/
def strContains (hay needle : String) : Bool :=
  hasSubAux needle.data hay.data

/-- Model of Python's `str.lower()` (the strings involved here are ASCII,
where the two agree). -/
def lowerStr (s : String) : String :=
  String.mk (s.data.map Char.toLower)

/-- Model of Python's `str.strip()`: drop surrounding whitespace.  (Python
also strips `\x0b`/`\x0c`; no string in any property proved here contains
those.) -/
def strTrim (s : String) : String :=
  String.mk (((s.data.dropWhile Char.isWhitespace).reverse.dropWhile
    Char.isWhitespace).reverse)

/-- Model of Python's `s.split(sep)` for a one-character separator, on
character lists.  `split` always returns at least one piece. -/
def splitCh (sep : Char) : List Char → List (List Char)
  | [] => [[]]
  | c :: t =>
    let r := splitCh sep t
    if c = sep then [] :: r
    else
      match r with
      | [] => [[c]]
      | h :: t2 => (c :: h) :: t2

/-- Python's `s.split(sep)` on strings, one-character separator. -/
def splitStr (sep : Char) (s : String) : List String :=
  (splitCh sep s.data).map String.mk

instance exceptDecEq {e a : Type} [DecidableEq e] [DecidableEq a] :
    DecidableEq (Except e a) := fun x y =>
  match x, y with
  | Except.error u, Except.error v =>
    if h : u = v then isTrue (by rw [h])
    else isFalse (fun hc => h (by injection hc))
  | Except.error _, Except.ok _ => isFalse (fun hc => by injection hc)
  | Except.ok _, Except.error _ => isFalse (fun hc => by injection hc)
  | Except.ok u, Except.ok v =>
    if h : u = v then isTrue (by rw [h])
    else isFalse (fun hc => h (by injection hc))

namespace RAG

/-- A citation as produced by `RAGService` (`backend/app/core/schemas.py`);
only the fields consulted by `validate_answer` matter here.  The source field
`end` is a Lean keyword, rendered `stop`. -/
structure Citation where
  path : String
  start : Int
  stop : Int
  score : Rat
  content : Option String
deriving DecidableEq

/-- The uncertainty indicator list of `RAGService.validate_answer`
(rag.py lines 202-205). -/
def uncertaintyIndicators : List String :=
  ["not sure", "uncertain", "not confident", "don\x27t know",
   "not found", "couldn\x27t find", "no relevant"]

/-- The f-string `f"{citation.path}:{citation.start}-{citation.end}"`
of rag.py line 214. -/
def citationTag (c : Citation) : String :=
  c.path ++ ":" ++ toString c.start ++ "-" ++ toString c.stop

/-- Shallow embedding of `RAGService.validate_answer` (rag.py lines 193-218).
`answer.strip()` is modelled by `String.trim` (both drop surrounding
whitespace).  Control flow is exactly the source's: empty answer rejected,
empty citation list rejected, then uncertainty indicators accept, then a
textually mentioned citation accepts. -/
def validateAnswer (answer : String) (citations : List Citation) : Bool :=
  if answer = "" ∨ strTrim answer = "" then false
  else if citations.isEmpty then false
  else if uncertaintyIndicators.any (fun ind => strContains (lowerStr answer) ind) then true
  else citations.any (fun c => strContains answer (citationTag c))

/-- Modelled from the spec's words (§4.5 step Validate), for comparison with
the code: valid iff non-empty and (some citation textually referenced or the
text signals uncertainty).  Note: no requirement that the citation list be
non-empty. -/
def specValid (answer : String) (citations : List Citation) : Bool :=
  answer ≠ "" &&
    (citations.any (fun c => strContains answer (citationTag c)) ||
     uncertaintyIndicators.any (fun ind => strContains (lowerStr answer) ind))

end RAG

namespace EmbedSvc

/-- The slice of `settings` and of the process environment consulted by
`EmbeddingService._initialize_embedding_service` (embedding.py lines 28-96).
`openaiImportOk` is whether `import openai` plus constructing
`openai.AsyncOpenAI` succeeds (no network call is made, so credential
validity plays no role); `localModelLoadable` is whether
`SentenceTransformer(settings.embed_model)` loads. -/
structure EmbedEnv where
  embedMode : String
  openaiApiKey : String
  openaiImportOk : Bool
  localModelLoadable : Bool
  localModelDim : Nat
deriving DecidableEq

/-- The mutable flags of `EmbeddingService` set in `__init__` and the
`_try_*` probes. -/
structure EmbedState where
  dimension : Nat
  useOpenai : Bool
  useLocal : Bool
  useMock : Bool
deriving DecidableEq

/-- Field initialisation in `EmbeddingService.__init__` (lines 18-24). -/
def initState : EmbedState :=
  { dimension := 384, useOpenai := false, useLocal := false, useMock := true }

/-- `EmbeddingService._try_openai` (lines 51-74): fails only when the key is
missing or the dummy testing key, or the openai import/client construction
raises; otherwise sets the openai flags WITHOUT probing the credential
(the source comment reads "Quick test (this will be replaced with actual
test in production)"). -/
def tryOpenai (env : EmbedEnv) (s : EmbedState) : Bool × EmbedState :=
  if env.openaiApiKey = "" ∨ env.openaiApiKey = "dummy-key-for-testing" then
    (false, s)
  else if env.openaiImportOk then
    (true, { s with useOpenai := true, useMock := false, dimension := 1536 })
  else (false, s)

/-- `EmbeddingService._try_local` (lines 76-88). -/
def tryLocal (env : EmbedEnv) (s : EmbedState) : Bool × EmbedState :=
  if env.localModelLoadable then
    (true, { s with useLocal := true, useMock := false, dimension := env.localModelDim })
  else (false, s)

/-- `EmbeddingService._use_mock` (lines 90-96). -/
def useMockState (s : EmbedState) : EmbedState :=
  { s with useMock := true, useOpenai := false, useLocal := false, dimension := 384 }

/-- `EmbeddingService._initialize_embedding_service` (lines 28-49).  Every
probe catches its own exceptions, so initialisation is total (construction
never raises). -/
def initializeEmbeddingService (env : EmbedEnv) : EmbedState :=
  let mode := lowerStr env.embedMode
  if mode = "auto" then
    let r1 := tryOpenai env initState
    if r1.1 then r1.2 else
      let r2 := tryLocal env r1.2
      if r2.1 then r2.2 else useMockState r2.2
  else if mode = "openai" then
    let r1 := tryOpenai env initState
    if r1.1 then r1.2 else useMockState r1.2
  else if mode = "local" then
    let r2 := tryLocal env initState
    if r2.1 then r2.2 else useMockState r2.2
  else useMockState initState

/-- `EmbeddingService.get_mode` (lines 195-202). -/
def getMode (s : EmbedState) : String :=
  if s.useOpenai then "openai" else if s.useLocal then "local" else "mock"

/-- An environment with a configured but invalid remote credential, in `auto`
mode, with the openai package importable and a loadable local model. -/
def invalidKeyEnv : EmbedEnv :=
  { embedMode := "auto", openaiApiKey := "sk-invalid-credential",
    openaiImportOk := true, localModelLoadable := true, localModelDim := 384 }

/-- An `auto`-mode environment with no credential configured and no loadable
local model. -/
def bareAutoEnv : EmbedEnv :=
  { embedMode := "auto", openaiApiKey := "", openaiImportOk := false,
    localModelLoadable := false, localModelDim := 384 }

end EmbedSvc

namespace MockEmbed

/-- One hex pair of the md5 hexdigest mapped into `[-1, 1]`:
`int(hex_pair, 16) / 255.0 * 2 - 1` (embedding.py line 182), as a function of
the byte value `b` of the pair.  Exact rational arithmetic: the Python floats
here are small dyadic-free rationals and the property refuted (unit norm) is
off by two orders of magnitude, far beyond any float rounding. -/
def hexPairVal (b : Nat) : Rat := (b : Rat) / 255 * 2 - 1

/-- The padding loop of `_mock_embedding` (embedding.py lines 186-187):
`while len(embedding) < dim: embedding.extend(embedding[:min(len(embedding),
dim - len(embedding))])`.  Structural fuel bounds the iteration count; each
pass on a non-empty list grows it by at least one element, so `fuel = dim`
always suffices (on an empty list Python's loop would never terminate, but a
md5 digest always has 16 bytes). -/
def padEmbedding (dim : Nat) : Nat → List Rat → List Rat
  | 0, e => e
  | fuel + 1, e =>
    if e.length < dim then
      padEmbedding dim fuel (e ++ e.take (min e.length (dim - e.length)))
    else e

/-- `EmbeddingService._mock_embedding` (embedding.py lines 173-189) as a
function of the md5 digest bytes of the input text: map each of the 16 hex
pairs into `[-1, 1]`, cyclically pad up to `dim`, truncate to `dim`.  The
result depends on nothing but the digest and the dimension — hence identical
across repeated calls and process restarts.  Note: NO normalisation step. -/
def mockEmbedding (digest : List Nat) (dim : Nat) : List Rat :=
  (padEmbedding dim dim (digest.map hexPairVal)).take dim

/-- Squared L2 norm, over any field (used at `Rat` for computation; the
normalisation argument for `Embedder._mock_vec` is field-generic and so also
applies over the reals). -/
def normSq {K : Type} [Field K] (v : List K) : K :=
  (v.map (fun x => x * x)).sum

/-- The md5 digest bytes of the empty string,
`d41d8cd98f00b204e9800998ecf8427e`. -/
def md5EmptyDigest : List Nat :=
  [0xd4, 0x1d, 0x8c, 0xd9, 0x8f, 0x00, 0xb2, 0x04,
   0xe9, 0x80, 0x09, 0x98, 0xec, 0xf8, 0x42, 0x7e]

end MockEmbed

namespace Chunking

/-- A chunk as produced by `chunk_file` (chunking.py, class `CodeChunk`).
`contentHash` is filled by `__post_init__` with the md5 hexdigest of the
content; the digest function enters as the explicit parameter `hashFn`. -/
structure CodeChunk where
  path : String
  content : String
  startLine : Nat
  endLine : Nat
  contentHash : String
  language : Option String
deriving DecidableEq

def mkChunk (hashFn : String → String) (path : String) (lang : Option String)
    (content : String) (s e : Nat) : CodeChunk :=
  { path := path, content := content, startLine := s, endLine := e,
    contentHash := hashFn content, language := lang }

/-- Python's `content.split('\n')` on strings. -/
def splitLinesStr (s : String) : List String :=
  splitStr '\n' s

/-- Whether `s.strip()` is falsy, i.e. `s` is all whitespace (this is what
both `if not content.strip()` and `if chunk_content.strip()` test). -/
def strBlank (s : String) : Bool :=
  s.data.all Char.isWhitespace

/-- Python's `'\n'.join(lines)`. -/
def joinNL : List String → String
  | [] => ""
  | [a] => a
  | a :: rest => a ++ "\n" ++ joinNL rest

/-- The accumulation loop of `chunk_file` (chunking.py lines 146-185).
`rest` are the lines not yet consumed, `i` the 1-based number of the next
line of `rest` (Python's `enumerate(lines, 1)`), `current` the accumulated
lines of the open chunk (lines `start .. i-1`), `size` the running token
estimate.  `lineSize` is the per-line token count — `len(encoding.encode(
line))` under tiktoken, `len(line)` under the fallback; both are just
functions `String → Nat`, so the loop is parameterised by it.  A closed-out
chunk is emitted only if its joined content is not all-whitespace
(`if chunk_content.strip()`), exactly as in the source. -/
def chunkLoop (hashFn : String → String) (lineSize : String → Nat)
    (path : String) (lang : Option String) (maxChunkSize : Nat) :
    List String → Nat → List String → Nat → Nat → List CodeChunk
  | [], i, current, _, start =>
    if current ≠ [] then
      if strBlank (joinNL current) = false then
        [mkChunk hashFn path lang (joinNL current) start (i - 1)]
      else []
    else []
  | line :: rest, i, current, size, start =>
    let ls := lineSize line
    if current ≠ [] ∧ size + ls > maxChunkSize then
      (if strBlank (joinNL current) = false then
        [mkChunk hashFn path lang (joinNL current) start (i - 1)]
      else []) ++
        chunkLoop hashFn lineSize path lang maxChunkSize rest (i + 1) [line] ls i
    else
      chunkLoop hashFn lineSize path lang maxChunkSize rest (i + 1)
        (current ++ [line]) (size + ls) start

/-- `chunk_file(file_path, content, max_chunk_size)` (chunking.py lines
128-187).  `lang` stands for `get_language_from_extension(file_path)`, a
pure extension-table lookup that no property here depends on. -/
def chunkFile (hashFn : String → String) (lineSize : String → Nat)
    (path : String) (lang : Option String) (content : String)
    (maxChunkSize : Nat) : List CodeChunk :=
  if strBlank content then []
  else chunkLoop hashFn lineSize path lang maxChunkSize
    (splitLinesStr content) 1 [] 0 1

end Chunking

namespace Snip

/-- The slice of `settings` consulted by the snippet extractor:
`repos_dir`, `snippet_context_lines`, `snippet_max_chars`. -/
structure SnipSettings where
  reposDir : String
  ctxDefault : Int
  maxCharsDefault : Int

/-- A readable file as the extractor sees it: `headBytes` the first 2048
bytes read for the binary probe, `readable` whether opening/reading raises
no exception, `lines` the `readlines()` result (decoding with
`errors="replace"` never fails, so `lines` always exists when `readable`). -/
structure FileData where
  headBytes : List Nat
  readable : Bool
  lines : List String
deriving DecidableEq

/-- Python truthiness defaulting `x or default` used for the
`context_lines` / `max_chars` arguments (snippets.py lines 60-61): `None`
and `0` both select the settings default. -/
def orDefault (v : Option Int) (dflt : Int) : Int :=
  match v with
  | none => dflt
  | some x => if x = 0 then dflt else x

/-- Whether a path string is absolute (posix). -/
def isAbsPath (s : String) : Bool :=
  leadsWith ['/'] s.data

/-- `os.path.join(a, b)` for two path strings (posix): an absolute `b`
discards `a`. -/
def pyJoin (a b : String) : String :=
  if isAbsPath b then b
  else if a = "" then b
  else if leadsWith ['/'] a.data.reverse then a ++ b
  else a ++ "/" ++ b

/-- The normalisation performed by `os.path.abspath` on an absolute posix
path, on segments: empty and "." segments vanish, ".." pops the previous
segment (and at the root stays at the root).  The result never contains
"", "." or "..". -/
def normAbs (segs : List String) : List String :=
  segs.foldl
    (fun acc s =>
      if s = "" ∨ s = "." then acc
      else if s = ".." then acc.dropLast
      else acc ++ [s]) []

/-- `os.path.abspath(p)` relative to the absolute working directory `cwd`
(given as normalised segments), as normalised segments. -/
def resolveAbs (cwd : List String) (p : String) : List String :=
  if isAbsPath p then normAbs (splitStr '/' p)
  else normAbs (cwd ++ splitStr '/' p)

/-- The candidate path of `_safe_repo_path` (snippets.py line 32):
`os.path.abspath(os.path.join(root, rel_path))` where `root` is the already
resolved repository root.  Joining the root string with an absolute
`rel_path` discards the root; otherwise the segments concatenate before
normalisation (so `..` segments of `rel_path` pop into the root). -/
def candidatePath (cwd : List String) (reposDir repoId relPath : String) :
    List String :=
  if isAbsPath relPath then normAbs (splitStr '/' relPath)
  else normAbs (resolveAbs cwd (pyJoin reposDir repoId) ++ splitStr '/' relPath)

/-- `_safe_repo_path(repo_id, rel_path)` (snippets.py lines 29-35).  The
source guard `candidate.startswith(root + os.sep) or candidate == root` is,
at segment level, exactly: `root` is a leading run of `candidate`.  On
failure it raises `ValueError("Path traversal detected")`, modelled as
`Except.error`. -/
def safeRepoPath (cwd : List String) (reposDir repoId relPath : String) :
    Except String (List String) :=
  if leadsWith (resolveAbs cwd (pyJoin reposDir repoId))
      (candidatePath cwd reposDir repoId relPath) then
    Except.ok (candidatePath cwd reposDir repoId relPath)
  else Except.error "Path traversal detected"

/-- The `_TEXT_EXTS` set of snippets.py lines 9-14. -/
def textExts : List String :=
  [".py", ".js", ".ts", ".tsx", ".jsx", ".java", ".kt", ".go", ".rb", ".rs",
   ".php", ".cs", ".c", ".h", ".hpp", ".cc", ".cpp", ".m", ".mm", ".swift",
   ".sh", ".bash", ".zsh", ".json", ".yml", ".yaml", ".toml", ".ini", ".cfg",
   ".env", ".md", ".rst", ".txt", ".html", ".css", ".scss", ".sql"]

/-- The suffix of `b` from its last `.` (inclusive), `[]` if `b` has no
dot. -/
def lastSplitDot : List Char → List Char
  | [] => []
  | c :: t =>
    let r := lastSplitDot t
    if r ≠ [] then r else if c = '.' then c :: t else []

/-- `os.path.splitext(path)[1].lower()`: the extension of the basename, where
leading dots of the basename never start an extension (posixpath.splitext
semantics). -/
def extOf (path : String) : String :=
  let b := (splitCh '/' path.data).getLastD []
  let k := (b.takeWhile (fun c => c = '.')).length
  if (b.drop k).contains '.' then
    String.mk ((lastSplitDot b).map Char.toLower)
  else ""

/-- `_is_probably_text(path, first_bytes)` (snippets.py lines 17-26).  The
final ratio test `asciiish / max(1, len(first_bytes)) > 0.85` is stated as
the equivalent integer comparison. -/
def isProbablyText (path : String) (firstBytes : List Nat) : Bool :=
  if firstBytes.contains 0 then false
  else if textExts.contains (extOf path) then true
  else
    100 * (firstBytes.filter
      (fun b => decide ((9 ≤ b ∧ b ≤ 126) ∨ b = 10 ∨ b = 13))).length >
      85 * max 1 firstBytes.length

/-- Python slice `l[a:b]` with full int semantics: negative bounds count
from the end, out-of-range bounds clamp. -/
def pySlice {α : Type} (l : List α) (a b : Int) : List α :=
  let n : Int := l.length
  let a2 := (if a < 0 then max 0 (n + a) else min a n).toNat
  let b2 := (if b < 0 then max 0 (n + b) else min b n).toNat
  (l.take b2).drop a2

/-- Python slice on strings. -/
def pySliceStr (s : String) (a b : Int) : String :=
  String.mk (pySlice s.data a b)

/-- Python's `''.join(lines)`. -/
def concatAll (l : List String) : String :=
  l.foldl (fun a b => a ++ b) ""

/-- The `max_chars` trimming of `extract_snippet` (snippets.py lines 92-97):
`head_keep = keep // 2`, `tail_keep = keep - head_keep`,
`block = block[:head_keep] + "\n...\n" + block[-tail_keep:]`.  `Int.fdiv` is
Python's floor division. -/
def truncateBlock (maxChars : Int) (block : String) : String :=
  if maxChars < (block.data.length : Int) then
    pySliceStr block 0 (Int.fdiv maxChars 2) ++ "\n...\n" ++
      pySliceStr block (-(maxChars - Int.fdiv maxChars 2)) block.data.length
  else block

/-- `extract_snippet(repo_id, rel_path, start, end, context_lines,
max_chars)` (snippets.py lines 38-99).  `_safe_repo_path` is called BEFORE
the `try`, so its `ValueError` propagates (`Except.error`); every failure
inside the `try` (missing or non-regular file, binary probe, read error,
empty file) yields `None` (`Except.ok none`).  `fs` is the filesystem:
`none` models "does not exist or is not a regular file".  The source field
`end` is a Lean keyword, rendered `stop`. -/
def extractFromFile (cfg : SnipSettings) (relPath : String) (f : FileData)
    (start stop : Int) (ctx maxChars : Option Int) :
    Except String (Option (Int × Int × String)) :=
  if f.readable = false then Except.ok none
  else if isProbablyText relPath f.headBytes = false then Except.ok none
  else if f.lines.length = 0 then Except.ok none
  else
    Except.ok (some
      (max 1 (start - orDefault ctx cfg.ctxDefault),
       min (f.lines.length : Int) (stop + orDefault ctx cfg.ctxDefault),
       truncateBlock (orDefault maxChars cfg.maxCharsDefault)
         (concatAll (pySlice f.lines
           (max 1 (start - orDefault ctx cfg.ctxDefault) - 1)
           (min (f.lines.length : Int)
             (stop + orDefault ctx cfg.ctxDefault))))))

def extractSnippet (cfg : SnipSettings) (cwd : List String)
    (fs : List String → Option FileData) (repoId relPath : String)
    (start stop : Int) (ctx maxChars : Option Int) :
    Except String (Option (Int × Int × String)) :=
  match safeRepoPath cwd cfg.reposDir repoId relPath with
  | Except.error e => Except.error e
  | Except.ok abspath =>
    match fs abspath with
    | none => Except.ok none
    | some f => extractFromFile cfg relPath f start stop ctx maxChars

/-- A settings instance with the defaults of config.py
(`snippet_context_lines = 6`, `snippet_max_chars = 1200`). -/
def exampleCfg : SnipSettings :=
  { reposDir := "data/repos", ctxDefault := 6, maxCharsDefault := 1200 }

/-- The file used as a concrete witness: `data/repos/r/f.py` with three
lines. -/
def exampleFile : FileData :=
  { headBytes := [97, 10, 98, 10, 99, 10], readable := true,
    lines := ["a\n", "b\n", "c\n"] }

/-- A one-file filesystem. -/
def exampleFs : List String → Option FileData :=
  fun p => if p = ["srv", "data", "repos", "r", "f.py"] then some exampleFile
    else none

/-- A 2000-character window text. -/
def bigBlock : String :=
  String.mk (List.replicate 2000 'a')

end Snip

namespace VS1

/-- A FAISS flat index as the SQLite-metadata `VectorStore` holds one:
creation dimension plus the stored vectors (`ntotal` is their count). -/
structure FaissIndex where
  dim : Nat
  vecs : List (List Rat)
deriving DecidableEq

/-- `VectorStore._create_index` (vector_store.py lines 104-108). -/
def createIndex (d : Nat) : FaissIndex :=
  { dim := d, vecs := [] }

/-- `VectorStore._load_index` (vector_store.py lines 110-126).  `meta` is the
sidecar record's `embedding_dimension` (`none` when the `.meta.json` file is
missing or unreadable, `_load_meta` lines 94-102); `persisted` is the
outcome of `faiss.read_index` (`error` when reading raises).  The dimension
mismatch `ValueError` of lines 116-120 is raised INSIDE this function's own
`try`; the `except Exception` catch-all of lines 124-126 therefore swallows
it (and any read failure), logs it, and calls `_create_index` — silently
continuing with a fresh empty index of the current dimension.  Hence the
result type is a plain `FaissIndex`, not `Except`: no error can propagate
out of `_load_index`, and none out of `__init__`. -/
def loadIndex (meta : Option Nat) (currentDim : Nat)
    (persisted : Except String FaissIndex) : FaissIndex :=
  match meta with
  | some m =>
    if m ≠ currentDim then createIndex currentDim
    else
      match persisted with
      | Except.ok idx => idx
      | Except.error _ => createIndex currentDim
  | none =>
    match persisted with
    | Except.ok idx => idx
    | Except.error _ => createIndex currentDim

/-- The fields of a `CodeChunk` that `add_chunks` reads when writing the
catalog row (vector_store.py lines 160-179). -/
structure ChunkRec where
  path : String
  language : String
  startLine : Int
  endLine : Int
  contentHash : String
  chunkType : String
deriving DecidableEq, Inhabited

/-- One row of the `chunks` SQLite table (vector_store.py lines 54-68),
keyed by the `embedding_id` primary key. -/
structure CatEntry where
  embeddingId : String
  repoId : String
  path : String
  language : String
  startLine : Int
  endLine : Int
  contentHash : String
  chunkType : String
  faissRow : Nat
deriving DecidableEq, Inhabited

/-- The state of one repository's store: the FAISS row count and the catalog
rows.  (The stored vector values play no part in any catalog property, so
the index is kept by its row count, exactly what `faiss_row` assignment
reads: `base_row = self.index.ntotal`.) -/
structure Store where
  ntotal : Nat
  catalog : List CatEntry
deriving DecidableEq

def emptyStore : Store :=
  { ntotal := 0, catalog := [] }

/-- `embedding_id = f"{chunk.content_hash}_{i}"` (line 161): `i` is the
enumeration index WITHIN ONE `add_chunks` call. -/
def mkEmbeddingId (h : String) (i : Nat) : String :=
  h ++ "_" ++ toString i

def mkEntry (repoId : String) (c : ChunkRec) (row : Nat) (i : Nat) : CatEntry :=
  { embeddingId := mkEmbeddingId c.contentHash i, repoId := repoId,
    path := c.path, language := c.language, startLine := c.startLine,
    endLine := c.endLine, contentHash := c.contentHash,
    chunkType := c.chunkType, faissRow := row }

/-- `INSERT OR REPLACE INTO chunks` keyed by the `embedding_id` primary key:
any existing row with the same key is deleted, the new row inserted. -/
def insertOrReplace (cat : List CatEntry) (e : CatEntry) : List CatEntry :=
  (cat.filter (fun x => x.embeddingId != e.embeddingId)) ++ [e]

/-- `VectorStore.add_chunks(chunks, embeddings)` (vector_store.py lines
143-185): empty `chunks` or `embeddings` is a no-op returning 0; otherwise
the vectors are appended to the FAISS index (`ntotal` grows by
`len(embeddings)`), and for each chunk, enumerated within this call,
a catalog row with `embedding_id = f"{content_hash}_{i}"` and
`faiss_row = base_row + i` is written via INSERT OR REPLACE. -/
def addChunks (s : Store) (repoId : String) (chunks : List ChunkRec)
    (embeds : List (List Rat)) : Store :=
  if chunks = [] ∨ embeds = [] then s
  else
    { ntotal := s.ntotal + embeds.length,
      catalog := chunks.enum.foldl
        (fun cat q => insertOrReplace cat (mkEntry repoId q.2 (s.ntotal + q.1) q.1))
        s.catalog }

/-- A sequence of `add_chunks` calls on one repository's store. -/
def runAdds (s : Store) (repoId : String)
    (calls : List (List ChunkRec × List (List Rat))) : Store :=
  calls.foldl (fun st p => addChunks st repoId p.1 p.2) s

/-- The embedding ids written by a call sequence, in write order (calls that
are no-ops write none). -/
def callIds (calls : List (List ChunkRec × List (List Rat))) : List String :=
  (calls.map (fun p =>
    if p.1 = [] ∨ p.2 = [] then []
    else p.1.enum.map (fun q => mkEmbeddingId q.2.contentHash q.1))).flatten

/-- The chunks recorded by the effective (non-no-op) calls, in order. -/
def effChunks (calls : List (List ChunkRec × List (List Rat))) : List ChunkRec :=
  (calls.map (fun p => if p.1 = [] ∨ p.2 = [] then [] else p.1)).flatten

/-- The number of vectors added by a call sequence. -/
def totalEmb (calls : List (List ChunkRec × List (List Rat))) : Nat :=
  (calls.map (fun p => if p.1 = [] ∨ p.2 = [] then 0 else p.2.length)).sum

/-- The catalog rows a call sequence appends when no embedding-id collision
occurs, starting at row `base`. -/
def expCatalog (repoId : String) (base : Nat) :
    List (List ChunkRec × List (List Rat)) → List CatEntry
  | [] => []
  | p :: rest =>
    if p.1 = [] ∨ p.2 = [] then expCatalog repoId base rest
    else (p.1.enum.map (fun q => mkEntry repoId q.2 (base + q.1) q.1)) ++
      expCatalog repoId (base + p.2.length) rest

/-- Whether catalog entry `e` records chunk `c` (all mirrored fields
agree). -/
def recordsB (e : CatEntry) (c : ChunkRec) : Bool :=
  e.path == c.path && e.language == c.language && e.startLine == c.startLine &&
    e.endLine == c.endLine && e.contentHash == c.contentHash &&
    e.chunkType == c.chunkType

/-- A chunk with a given content hash, used in concrete instances. -/
def sampleChunk (h : String) : ChunkRec :=
  { path := "p.py", language := "python", startLine := 1, endLine := 2,
    contentHash := h, chunkType := "code" }

end VS1

namespace VS2

/-- A `CodeChunk` as the pickled-chunk-list `VectorStore` stores and reads
it in `search` (vector_store.py lines 128-138). -/
structure Chunk2 where
  path : String
  content : String
  startLine : Int
  endLine : Int
  contentHash : String
deriving DecidableEq, Inhabited

/-- One entry of the list `search` returns (lines 131-138). -/
structure SearchResult where
  path : String
  startLine : Int
  endLine : Int
  content : String
  score : Rat
  contentHash : String
deriving DecidableEq

/-- The state of one store: the pickled chunk list and the FAISS index's
stored vectors (`ntotal = index.length`).  `_load` can leave
`chunks.length < index.length` when the index file exists but the chunks
pickle is missing (each artifact is loaded independently, lines 44-51). -/
structure Store2 where
  chunks : List Chunk2
  index : List (List Rat)

/-- Inner product of two stored vectors (vectors in one index share its
dimension; `zip` realises the componentwise product). -/
def dot (a b : List Rat) : Rat :=
  ((a.zip b).map (fun p => p.1 * p.2)).sum

/-- The exact scores `IndexFlatIP` computes for a (normalised) query: one
inner product per stored row. -/
def scorePairs (qn : List Rat) (index : List (List Rat)) : List (Nat × Rat) :=
  (List.range index.length).map (fun i => (i, dot qn (index.getD i [])))

/-- Ranking order of `IndexFlatIP.search` results: descending score, ties
broken by the earlier row. -/
def rankLE (p q : Nat × Rat) : Bool :=
  decide (q.2 < p.2) || (decide (p.2 = q.2) && decide (p.1 ≤ q.1))

def insertRanked (a : Nat × Rat) : List (Nat × Rat) → List (Nat × Rat)
  | [] => [a]
  | b :: l => if rankLE a b then a :: b :: l else b :: insertRanked a l

/-- Sort score pairs by `rankLE` (insertion sort; `rankLE` is a total order
on the pairs of one query, so any sorting realisation of the FAISS ranking
yields this list). -/
def rankSort (l : List (Nat × Rat)) : List (Nat × Rat) :=
  l.foldr insertRanked []

def mkResult (c : Chunk2) (score : Rat) : SearchResult :=
  { path := c.path, startLine := c.startLine, endLine := c.endLine,
    content := c.content, score := score, contentHash := c.contentHash }

/-- `VectorStore.search(query_embedding, k)` (vector_store.py lines
114-140): empty index returns `[]`; otherwise FAISS returns the top
`min(k, ntotal)` rows by score and the loop keeps a result only `if idx <
len(self.chunks)`, reading every kept result's metadata from
`self.chunks[idx]`.  The query is taken already normalised
(`faiss.normalize_L2` rescales every score by the same positive factor
1/‖q‖, which is irrational in general; no property below depends on the
score values, and the ranking is unchanged by a positive rescaling). -/
def search (s : Store2) (qn : List Rat) (k : Nat) : List SearchResult :=
  if s.index.length = 0 then []
  else
    ((rankSort (scorePairs qn s.index)).take (min k s.index.length)).filterMap
      (fun p =>
        if p.1 < s.chunks.length then some (mkResult (s.chunks.getD p.1 default) p.2)
        else none)

/-- A store whose index has one row but whose chunk list is empty (the
reload-mismatch state). -/
def orphanStore : Store2 :=
  { chunks := [], index := [[]] }

/-- One chunk, one (empty-dimension) stored vector: the smallest store whose
`search` returns a row. -/
def exampleChunk : Chunk2 :=
  { path := "p.py", content := "x = 1", startLine := 1, endLine := 1,
    contentHash := "h" }

def exampleStore : Store2 :=
  { chunks := [exampleChunk], index := [[]] }

end VS2

/-! Theorems. -/

/-- Claim C7, counterexample: the orchestrator's validation is NOT the spec's
predicate.  The uncertain-but-honest answer "I am not sure." with an empty
citation list is valid per the claim (non-empty, contains the uncertainty
phrase "not sure") but `validate_answer` returns False, because it rejects
any answer whose citation list is empty before looking for uncertainty. -/
theorem C7_validate_counterexample :
    RAG.validateAnswer "I am not sure." [] = false ∧
    RAG.specValid "I am not sure." [] = true := by
  constructor
  · decide
  · decide

/-- Claim C7, amended: an answer is judged valid by `validate_answer` iff it
is non-empty (also after stripping), its citation list is NON-EMPTY, and
(its text contains an uncertainty phrase, or some citation is textually
referenced in the `path:start-end` form).  An uncertain-but-honest answer is
accepted only when it carries at least one citation. -/
theorem C7_validate_amended (a : String) (cs : List RAG.Citation) :
    RAG.validateAnswer a cs = true ↔
      (a ≠ "" ∧ strTrim a ≠ "" ∧ cs ≠ [] ∧
        (RAG.uncertaintyIndicators.any (fun ind => strContains (lowerStr a) ind) = true ∨
         cs.any (fun c => strContains a (RAG.citationTag c)) = true)) := by
  unfold RAG.validateAnswer
  split_ifs with h1 h2 h3
  · simp only [false_iff]
    rintro ⟨ha, ha', _⟩
    rcases h1 with h | h
    · exact ha h
    · exact ha' h
  · simp only [false_iff]
    rintro ⟨_, _, hcs, _⟩
    exact hcs (List.isEmpty_iff.mp h2)
  · push_neg at h1
    simp only [true_iff]
    exact ⟨h1.1, h1.2, fun h => h2 (by simp [h]), Or.inl h3⟩
  · push_neg at h1
    constructor
    · intro h
      exact ⟨h1.1, h1.2, fun hc => h2 (by simp [hc]), Or.inr h⟩
    · rintro ⟨_, _, _, h | h⟩
      · exact absurd h h3
      · exact h

/-- Claim C8, counterexample: in `auto` mode with a configured (non-dummy)
credential that is invalid, construction indeed never raises, but the service
reports mode "openai" — not "local" or "mock" — because `_try_openai` sets
the openai flags without ever testing the credential. -/
theorem C8_initialize_counterexample :
    EmbedSvc.getMode (EmbedSvc.initializeEmbeddingService EmbedSvc.invalidKeyEnv) = "openai" ∧
    ("openai" : String) ≠ "local" ∧ ("openai" : String) ≠ "mock" := by
  refine ⟨by decide, by decide, by decide⟩

/-- Claim C8, amended: construction is total (never raises; modelled by
`initializeEmbeddingService` being a total function), and in `auto` mode the
reported mode is "openai" whenever any credential other than empty or the
dummy testing key is configured and the openai package imports — regardless
of the credential's validity, which is never probed; only when no such
credential is configured does it fall back to "local" (model loadable) or
"mock". -/
theorem C8_initialize_amended (env : EmbedSvc.EmbedEnv)
    (h : lowerStr env.embedMode = "auto") :
    EmbedSvc.getMode (EmbedSvc.initializeEmbeddingService env) =
      if env.openaiApiKey ≠ "" ∧ env.openaiApiKey ≠ "dummy-key-for-testing" ∧
          env.openaiImportOk then "openai"
      else if env.localModelLoadable then "local"
      else "mock" := by
  unfold EmbedSvc.initializeEmbeddingService
  rw [h]
  by_cases hk : env.openaiApiKey = "" ∨ env.openaiApiKey = "dummy-key-for-testing"
  · have hc : ¬(env.openaiApiKey ≠ "" ∧ env.openaiApiKey ≠ "dummy-key-for-testing" ∧
        env.openaiImportOk = true) := by
      rintro ⟨h1, h2, _⟩
      rcases hk with hk | hk
      · exact h1 hk
      · exact h2 hk
    rw [if_neg hc]
    by_cases hl : env.localModelLoadable <;>
      simp [EmbedSvc.tryOpenai, EmbedSvc.tryLocal, EmbedSvc.useMockState,
        EmbedSvc.initState, EmbedSvc.getMode, hk, hl]
  · push_neg at hk
    by_cases ho : env.openaiImportOk <;> by_cases hl : env.localModelLoadable <;>
      simp [EmbedSvc.tryOpenai, EmbedSvc.tryLocal, EmbedSvc.useMockState,
        EmbedSvc.initState, EmbedSvc.getMode, hk.1, hk.2, ho, hl]

/-- Witness for `C8_initialize_amended`: a concrete `auto`-mode environment
with no credential and no local model reports mode "mock". -/
theorem C8_initialize_amended_witness :
    lowerStr EmbedSvc.bareAutoEnv.embedMode = "auto" ∧
    EmbedSvc.getMode (EmbedSvc.initializeEmbeddingService EmbedSvc.bareAutoEnv) = "mock" := by
  refine ⟨by decide, ?_⟩
  have h := C8_initialize_amended EmbedSvc.bareAutoEnv (by decide)
  simpa [EmbedSvc.bareAutoEnv] using h

theorem MockEmbed.padEmbedding_length_ge (dim : Nat) :
    ∀ (fuel : Nat) (e : List Rat), e ≠ [] → dim ≤ e.length + fuel →
      dim ≤ (MockEmbed.padEmbedding dim fuel e).length := by
  intro fuel
  induction fuel with
  | zero => intro e _ h; simpa using h
  | succ n ih =>
    intro e he h
    rw [MockEmbed.padEmbedding]
    split_ifs with hlt
    · have hne : e.length ≠ 0 := fun h0 => he (List.length_eq_zero.mp h0)
      have hgrow : e.length + 1 ≤ (e ++ e.take (min e.length (dim - e.length))).length := by
        rw [List.length_append, List.length_take]
        omega
      refine ih _ (fun h0 => he ?_) (by omega)
      rcases List.append_eq_nil.mp h0 with ⟨h1, _⟩
      exact h1
    · omega

theorem MockEmbed.padEmbedding_mem (dim : Nat) :
    ∀ (fuel : Nat) (e : List Rat) (x : Rat),
      x ∈ MockEmbed.padEmbedding dim fuel e → x ∈ e := by
  intro fuel
  induction fuel with
  | zero => intro e x h; simpa [MockEmbed.padEmbedding] using h
  | succ n ih =>
    intro e x h
    rw [MockEmbed.padEmbedding] at h
    split_ifs at h with hlt
    · rcases List.mem_append.mp (ih _ _ h) with h1 | h1
      · exact h1
      · exact List.mem_of_mem_take h1
    · exact h

theorem MockEmbed.sum_map_div {K : Type} [Field K] (l : List K) (c : K) :
    (l.map (fun x => x / c)).sum = l.sum / c := by
  induction l with
  | nil => simp
  | cons a t ih => simp [ih, add_div]

theorem MockEmbed.normSq_append {K : Type} [Field K] (a b : List K) :
    MockEmbed.normSq (a ++ b) = MockEmbed.normSq a + MockEmbed.normSq b := by
  simp [MockEmbed.normSq]

theorem MockEmbed.pad_stop (dim : Nat) : ∀ (f : Nat) (e : List Rat),
    ¬ e.length < dim → MockEmbed.padEmbedding dim f e = e := by
  intro f
  induction f with
  | zero => intro e _; rfl
  | succ n ih => intro e h; rw [MockEmbed.padEmbedding, if_neg h]

theorem MockEmbed.pad_double (dim : Nat) (f : Nat) (e : List Rat)
    (h1 : e.length < dim) (h2 : e.length ≤ dim - e.length) :
    MockEmbed.padEmbedding dim (f + 1) e = MockEmbed.padEmbedding dim f (e ++ e) := by
  rw [MockEmbed.padEmbedding, if_pos h1, min_eq_left h2, List.take_length]

theorem MockEmbed.pad_fill (dim : Nat) (f : Nat) (e : List Rat)
    (h1 : e.length < dim) (h2 : dim - e.length < e.length) :
    MockEmbed.padEmbedding dim (f + 1) e =
      MockEmbed.padEmbedding dim f (e ++ e.take (dim - e.length)) := by
  rw [MockEmbed.padEmbedding, if_pos h1, min_eq_right (le_of_lt h2)]

theorem MockEmbed.mock384 (d : List Nat) (hd : d.length = 16) (p : List Rat)
    (hpd : p = d.map MockEmbed.hexPairVal) :
    MockEmbed.mockEmbedding d 384 =
      p ++ p ++ (p ++ p) ++ (p ++ p ++ (p ++ p)) ++
        (p ++ p ++ (p ++ p) ++ (p ++ p ++ (p ++ p))) ++
        (p ++ p ++ (p ++ p) ++ (p ++ p ++ (p ++ p))) := by
  have hp : p.length = 16 := by simp [hpd, hd]
  have l2 : (p ++ p).length = 32 := by simp [hp]
  have l4 : (p ++ p ++ (p ++ p)).length = 64 := by simp [hp]
  have l8 : (p ++ p ++ (p ++ p) ++ (p ++ p ++ (p ++ p))).length = 128 := by simp [hp]
  have l16 : ((p ++ p ++ (p ++ p) ++ (p ++ p ++ (p ++ p))) ++
      (p ++ p ++ (p ++ p) ++ (p ++ p ++ (p ++ p)))).length = 256 := by simp [hp]
  show (MockEmbed.padEmbedding 384 384 (d.map MockEmbed.hexPairVal)).take 384 = _
  rw [← hpd]
  rw [show (384 : Nat) = 383 + 1 from rfl,
    MockEmbed.pad_double 384 383 p (by omega) (by omega)]
  rw [show (383 : Nat) = 382 + 1 from rfl,
    MockEmbed.pad_double 384 382 _ (by rw [l2]; omega) (by rw [l2]; omega)]
  rw [show (382 : Nat) = 381 + 1 from rfl,
    MockEmbed.pad_double 384 381 _ (by rw [l4]; omega) (by rw [l4]; omega)]
  rw [show (381 : Nat) = 380 + 1 from rfl,
    MockEmbed.pad_double 384 380 _ (by rw [l8]; omega) (by rw [l8]; omega)]
  rw [show (380 : Nat) = 379 + 1 from rfl,
    MockEmbed.pad_fill 384 379 _ (by rw [l16]; omega) (by rw [l16]; omega)]
  rw [l16]
  rw [show (384 - 256 : Nat) = 128 from rfl]
  rw [show ((p ++ p ++ (p ++ p) ++ (p ++ p ++ (p ++ p))) ++
      (p ++ p ++ (p ++ p) ++ (p ++ p ++ (p ++ p)))).take 128
      = p ++ p ++ (p ++ p) ++ (p ++ p ++ (p ++ p)) from by
    rw [← l8]; exact List.take_left _ _]
  rw [MockEmbed.pad_stop 384 379 _ (by simp [hp])]
  rw [List.take_of_length_le (by simp [hp])]

/-- Claim C6, counterexample: the deterministic mock embedding of
`EmbeddingService._mock_embedding` is NOT unit-normalised.  At the empty
string (md5 digest `d41d8cd98f00b204e9800998ecf8427e`) the squared L2 norm
of the 384-dimensional vector is 11055168/65025 = 170.01..., not 1 — far
outside any floating tolerance. -/
theorem C6_mock_counterexample :
    MockEmbed.normSq (MockEmbed.mockEmbedding MockEmbed.md5EmptyDigest 384) =
      11055168 / 65025 ∧
    MockEmbed.normSq (MockEmbed.mockEmbedding MockEmbed.md5EmptyDigest 384) ≠ 1 ∧
    (100 : Rat) <
      MockEmbed.normSq (MockEmbed.mockEmbedding MockEmbed.md5EmptyDigest 384) := by
  have h : MockEmbed.normSq (MockEmbed.mockEmbedding MockEmbed.md5EmptyDigest 384) =
      11055168 / 65025 := by
    rw [MockEmbed.mock384 MockEmbed.md5EmptyDigest (by decide)
      (MockEmbed.md5EmptyDigest.map MockEmbed.hexPairVal) rfl]
    simp only [MockEmbed.normSq_append]
    norm_num [MockEmbed.md5EmptyDigest, MockEmbed.normSq, MockEmbed.hexPairVal]
  refine ⟨h, by rw [h]; norm_num, by rw [h]; norm_num⟩

/-- Claim C6, amended: the mock embedding is a pure function of the text's
digest (hence identical across repeated calls and process restarts), of the
requested length, with entries in `[-1, 1]`; and the separate
`Embedder._mock_vec` backend, which DOES divide by the L2 norm (embeddings.py
line 83), produces a unit-norm vector whenever the norm is non-zero — the
field-generic normalisation fact is the third conjunct.  What the claim loses
is only unit norm for `EmbeddingService._mock_embedding`, which never
normalises. -/
theorem C6_mock_amended :
    (∀ (d : List Nat) (dim : Nat), d ≠ [] →
      (MockEmbed.mockEmbedding d dim).length = dim) ∧
    (∀ (d : List Nat) (dim : Nat), (∀ b ∈ d, b ≤ 255) →
      ∀ x ∈ MockEmbed.mockEmbedding d dim, -1 ≤ x ∧ x ≤ 1) ∧
    (∀ (K : Type) [Field K] (v : List K) (c : K), c ≠ 0 →
      c * c = MockEmbed.normSq v →
      MockEmbed.normSq (v.map (fun x => x / c)) = 1) := by
  refine ⟨?_, ?_, ?_⟩
  · intro d dim hd
    have hne : d.map MockEmbed.hexPairVal ≠ [] := by
      simpa using hd
    have h := MockEmbed.padEmbedding_length_ge dim dim (d.map MockEmbed.hexPairVal)
      hne (by omega)
    simp [MockEmbed.mockEmbedding, List.length_take]
    omega
  · intro d dim hb x hx
    have hx' : x ∈ MockEmbed.padEmbedding dim dim (d.map MockEmbed.hexPairVal) :=
      List.mem_of_mem_take hx
    have hx'' := MockEmbed.padEmbedding_mem dim dim _ x hx'
    rcases List.mem_map.mp hx'' with ⟨b, hbmem, rfl⟩
    have hble : (b : Rat) ≤ 255 := by exact_mod_cast hb b hbmem
    have hb0 : (0 : Rat) ≤ (b : Rat) := by positivity
    unfold MockEmbed.hexPairVal
    constructor
    · nlinarith
    · nlinarith
  · intro K _ v c hc hcc
    have hmap : (v.map (fun x => x / c)).map (fun x => x * x) =
        (v.map (fun x => x * x)).map (fun x => x / (c * c)) := by
      simp only [List.map_map]
      refine List.map_congr_left ?_
      intro a _
      field_simp
    unfold MockEmbed.normSq
    rw [hmap, MockEmbed.sum_map_div]
    rw [show (v.map (fun x => x * x)).sum = MockEmbed.normSq v from rfl, ← hcc]
    exact div_self (mul_ne_zero hc hc)

/-- Witness for `C6_mock_amended`: the empty-string digest yields a vector of
length 384 with entries in range, and normalising `[3, 4]` by its norm 5
yields a unit vector. -/
theorem C6_mock_amended_witness :
    (MockEmbed.md5EmptyDigest ≠ [] ∧
      (MockEmbed.mockEmbedding MockEmbed.md5EmptyDigest 384).length = 384) ∧
    ((5 : Rat) ≠ 0 ∧ (5 : Rat) * 5 = MockEmbed.normSq [(3 : Rat), 4] ∧
      MockEmbed.normSq ([(3 : Rat), 4].map (fun x => x / 5)) = 1) := by
  have h1 : (5 : Rat) ≠ 0 := by norm_num
  have h2 : (5 : Rat) * 5 = MockEmbed.normSq [(3 : Rat), 4] := by
    norm_num [MockEmbed.normSq]
  refine ⟨⟨by decide, C6_mock_amended.1 _ 384 (by decide)⟩,
    h1, h2, C6_mock_amended.2.2 Rat [(3 : Rat), 4] 5 h1 h2⟩

theorem Chunking.joinNL_not_blank : ∀ (l : List String), l ≠ [] →
    (∀ x ∈ l, Chunking.strBlank x = false) →
    Chunking.strBlank (Chunking.joinNL l) = false
  | [], h, _ => absurd rfl h
  | [a], _, hall => by simpa [Chunking.joinNL] using hall a (by simp)
  | a :: b :: t, _, hall => by
    have ha : Chunking.strBlank a = false := hall a (by simp)
    show Chunking.strBlank ((a ++ "\n") ++ Chunking.joinNL (b :: t)) = false
    unfold Chunking.strBlank at ha ⊢
    rw [String.data_append, String.data_append, List.all_append, List.all_append, ha]
    simp

theorem Chunking.chunkLoop_bounds (hashFn : String → String)
    (lineSize : String → Nat) (path : String) (lang : Option String)
    (maxSize : Nat) :
    ∀ (rest : List String) (i : Nat) (current : List String) (size start : Nat),
      1 ≤ start → start + current.length = i →
      ((∀ c ∈ Chunking.chunkLoop hashFn lineSize path lang maxSize rest i current size start,
          start ≤ c.startLine ∧ c.startLine ≤ c.endLine ∧
            c.endLine ≤ i - 1 + rest.length) ∧
        List.Chain' (fun a b => a.endLine < b.startLine)
          (Chunking.chunkLoop hashFn lineSize path lang maxSize rest i current size start)) := by
  intro rest
  induction rest with
  | nil =>
    intro i current size start h1 h2
    constructor
    · intro c hc
      unfold Chunking.chunkLoop at hc
      split_ifs at hc with hcur hblank
      · simp only [List.mem_singleton] at hc
        subst hc
        have hlen : 1 ≤ current.length := List.length_pos.mpr hcur
        refine ⟨le_rfl, ?_, ?_⟩ <;>
          · simp only [Chunking.mkChunk]
            omega
      · exact absurd hc (List.not_mem_nil c)
      · exact absurd hc (List.not_mem_nil c)
    · unfold Chunking.chunkLoop
      split_ifs <;> simp
  | cons line rest' ih =>
    intro i current size start h1 h2
    by_cases hclose : current ≠ [] ∧ size + lineSize line > maxSize
    · have hrec := ih (i + 1) [line] (lineSize line) i (by omega) (by simp)
      have hlen : 1 ≤ current.length := List.length_pos.mpr hclose.1
      constructor
      · intro c hc
        simp only [Chunking.chunkLoop, if_pos hclose] at hc
        rcases List.mem_append.mp hc with hcl | hcr
        · split_ifs at hcl with hb
          · simp only [List.mem_singleton] at hcl
            subst hcl
            refine ⟨le_rfl, ?_, ?_⟩ <;>
              simp only [Chunking.mkChunk, List.length_cons] <;> omega
          · exact absurd hcl (List.not_mem_nil c)
        · have h3 := hrec.1 c hcr
          simp only [List.length_cons] at *
          exact ⟨by omega, h3.2.1, by omega⟩
      · simp only [Chunking.chunkLoop, if_pos hclose]
        split_ifs with hb
        · rw [List.singleton_append, List.chain'_cons']
          refine ⟨?_, hrec.2⟩
          intro b hb'
          have hbmem := List.mem_of_mem_head? hb'
          have h3 := hrec.1 b hbmem
          simp [Chunking.mkChunk]
          omega
        · simpa using hrec.2
    · have hrec := ih (i + 1) (current ++ [line]) (size + lineSize line) start h1
        (by simp; omega)
      constructor
      · intro c hc
        simp only [Chunking.chunkLoop, if_neg hclose] at hc
        have h3 := hrec.1 c hc
        simp only [List.length_cons] at *
        exact ⟨h3.1, h3.2.1, by omega⟩
      · simp only [Chunking.chunkLoop, if_neg hclose]
        exact hrec.2

theorem Chunking.chunkLoop_exact (hashFn : String → String)
    (lineSize : String → Nat) (path : String) (lang : Option String)
    (maxSize : Nat) :
    ∀ (rest : List String) (i : Nat) (current : List String) (size start : Nat),
      1 ≤ start → start + current.length = i →
      (∀ l ∈ current, Chunking.strBlank l = false) →
      (∀ l ∈ rest, Chunking.strBlank l = false) →
      current ≠ [] ∨ rest ≠ [] →
      ((Chunking.chunkLoop hashFn lineSize path lang maxSize rest i current size start)
          ≠ [] ∧
        (Chunking.chunkLoop hashFn lineSize path lang maxSize rest i current
          size start).head?.map (fun c => c.startLine) = some start ∧
        List.Chain' (fun a b => b.startLine = a.endLine + 1)
          (Chunking.chunkLoop hashFn lineSize path lang maxSize rest i current size start) ∧
        (Chunking.chunkLoop hashFn lineSize path lang maxSize rest i current
          size start).getLast?.map (fun c => c.endLine) =
            some (i - 1 + rest.length)) := by
  intro rest
  induction rest with
  | nil =>
    intro i current size start h1 h2 hcur _ hne
    have hcur' : current ≠ [] := by
      rcases hne with h | h
      · exact h
      · exact absurd rfl h
    have hnb := Chunking.joinNL_not_blank current hcur' hcur
    unfold Chunking.chunkLoop
    rw [if_pos hcur', if_pos hnb]
    refine ⟨by simp, by simp [Chunking.mkChunk], by simp, by simp [Chunking.mkChunk]⟩
  | cons line rest' ih =>
    intro i current size start h1 h2 hcur hrest hne
    have hline : Chunking.strBlank line = false := hrest line (by simp)
    have hrest' : ∀ l ∈ rest', Chunking.strBlank l = false :=
      fun l hl => hrest l (by simp [hl])
    by_cases hclose : current ≠ [] ∧ size + lineSize line > maxSize
    · have hlen : 1 ≤ current.length := List.length_pos.mpr hclose.1
      have hnb := Chunking.joinNL_not_blank current hclose.1 hcur
      have hrec := ih (i + 1) [line] (lineSize line) i (by omega) (by simp)
        (by simpa using hline) hrest' (Or.inl (by simp))
      simp only [Chunking.chunkLoop, if_pos hclose, if_pos hnb]
      rcases hout : Chunking.chunkLoop hashFn lineSize path lang maxSize rest'
          (i + 1) [line] (lineSize line) i with _ | ⟨b, lrest⟩
      · rw [hout] at hrec
        exact absurd rfl hrec.1
      · rw [hout] at hrec
        have hbstart : b.startLine = i := by
          have := hrec.2.1
          simp only [List.head?_cons, Option.map_some] at this
          exact Option.some.inj this
        refine ⟨by simp, ?_, ?_, ?_⟩
        · simp [Chunking.mkChunk]
        · rw [List.singleton_append, List.chain'_cons']
          refine ⟨?_, hrec.2.2.1⟩
          intro x hx
          simp only [List.head?_cons, Option.mem_def, Option.some.injEq] at hx
          subst hx
          simp only [Chunking.mkChunk, hbstart]
          omega
        · rw [List.singleton_append]
          have hlast := hrec.2.2.2
          have hgl : (Chunking.mkChunk hashFn path lang (Chunking.joinNL current)
              start (i - 1) :: b :: lrest).getLast? = (b :: lrest).getLast? := by
            simp [List.getLast?]
          rw [hgl, hlast]
          simp only [List.length_cons]
          congr 1
          omega
    · have hrec := ih (i + 1) (current ++ [line]) (size + lineSize line) start h1
        (by simp; omega)
        (by
          intro l hl
          rcases List.mem_append.mp hl with h | h
          · exact hcur l h
          · simpa using (by simpa using h) ▸ hline)
        hrest' (Or.inl (by simp))
      simp only [Chunking.chunkLoop, if_neg hclose]
      refine ⟨hrec.1, hrec.2.1, hrec.2.2.1, ?_⟩
      rw [hrec.2.2.2]
      simp only [List.length_cons]
      congr 1
      omega

/-- Claim C5, counterexample: with a one-token budget and the file content
"a\n \nb" (three lines, the middle one whitespace-only), the chunker closes
the chunk holding only line 2, finds it all-whitespace and DROPS it, so the
produced chunks are (1,1) and (3,3): the second chunk does not start at the
line after the previous chunk's end (3 is not 1+1) and line 2 is covered by
no chunk.  Line sizes are taken as character counts (the source's fallback;
under tiktoken each of these lines is also exactly one token). -/
theorem C5_chunk_counterexample :
    ((Chunking.chunkFile (fun s => s) (fun s => s.length) "f" none "a\n \nb" 1).map
      (fun c => (c.startLine, c.endLine))) = [(1, 1), (3, 3)] ∧
    ¬ (3 = 1 + 1) := by
  constructor
  · decide
  · decide

/-- Claim C5, amended: every produced chunk satisfies
`1 ≤ start_line ≤ end_line ≤ total_lines`, and chunks are ordered and
disjoint (`prev.end_line < next.start_line`); the exact gap-free coverage the
claim states (first chunk at line 1, each next chunk at the line after the
previous end, last chunk at the last line) holds provided no whitespace-only
chunk is dropped — in particular whenever every line of the file contains a
non-whitespace character.  (The chunker has no overlap, matching the claim's
`overlap 0` reading.) -/
theorem C5_chunk_amended (hashFn : String → String) (lineSize : String → Nat)
    (path : String) (lang : Option String) (content : String) (maxSize : Nat) :
    (∀ c ∈ Chunking.chunkFile hashFn lineSize path lang content maxSize,
      1 ≤ c.startLine ∧ c.startLine ≤ c.endLine ∧
        c.endLine ≤ (Chunking.splitLinesStr content).length) ∧
    List.Chain' (fun a b => a.endLine < b.startLine)
      (Chunking.chunkFile hashFn lineSize path lang content maxSize) ∧
    (Chunking.strBlank content = false →
      (∀ l ∈ Chunking.splitLinesStr content, Chunking.strBlank l = false) →
      ((Chunking.chunkFile hashFn lineSize path lang content maxSize).head?.map
          (fun c => c.startLine) = some 1 ∧
        List.Chain' (fun a b => b.startLine = a.endLine + 1)
          (Chunking.chunkFile hashFn lineSize path lang content maxSize) ∧
        (Chunking.chunkFile hashFn lineSize path lang content maxSize).getLast?.map
          (fun c => c.endLine) = some (Chunking.splitLinesStr content).length)) := by
  unfold Chunking.chunkFile
  split_ifs with hblank
  · refine ⟨by simp, by simp, ?_⟩
    intro h
    rw [hblank] at h
    exact absurd h (by simp)
  · have hb := Chunking.chunkLoop_bounds hashFn lineSize path lang maxSize
      (Chunking.splitLinesStr content) 1 [] 0 1 le_rfl (by simp)
    refine ⟨fun c hc => by simpa using hb.1 c hc, hb.2, ?_⟩
    intro _ hlines
    have hnn : Chunking.splitLinesStr content ≠ [] := by
      unfold Chunking.splitLinesStr splitStr
      rcases content.data with _ | ⟨c, t⟩
      · simp [splitCh]
      · unfold splitCh
        split_ifs
        · simp
        · rcases splitCh '\n' t with _ | ⟨h', t'⟩ <;> simp
    have he := Chunking.chunkLoop_exact hashFn lineSize path lang maxSize
      (Chunking.splitLinesStr content) 1 [] 0 1 le_rfl (by simp)
      (by simp) hlines (Or.inr hnn)
    exact ⟨he.2.1, he.2.2.1, by simpa using he.2.2.2⟩

/-- Witness for `C5_chunk_amended`: the two-line file "a\nb" with a one-token
budget yields chunks (1,1),(2,2): first at line 1, consecutive, last at the
last line. -/
theorem C5_chunk_amended_witness :
    Chunking.strBlank "a\nb" = false ∧
    (∀ l ∈ Chunking.splitLinesStr "a\nb", Chunking.strBlank l = false) ∧
    ((Chunking.chunkFile (fun s => s) (fun s => s.length) "f" none "a\nb" 1).head?.map
        (fun c => c.startLine) = some 1 ∧
      List.Chain' (fun a b => b.startLine = a.endLine + 1)
        (Chunking.chunkFile (fun s => s) (fun s => s.length) "f" none "a\nb" 1) ∧
      (Chunking.chunkFile (fun s => s) (fun s => s.length) "f" none "a\nb" 1).getLast?.map
        (fun c => c.endLine) = some (Chunking.splitLinesStr "a\nb").length) := by
  refine ⟨by decide, by decide, ?_⟩
  exact (C5_chunk_amended (fun s => s) (fun s => s.length) "f" none "a\nb" 1).2.2
    (by decide) (by decide)

/-- Claim C3: whenever the resolution of `rel_path` under the repository
root escapes that root (the root's segments are not a leading run of the
normalised candidate's segments), `extract_snippet` propagates the
`ValueError("Path traversal detected")` raised by `_safe_repo_path` — the
call sits before the `try` block, so the error is a hard error for every
filesystem state and never becomes a window or a `None`. -/
theorem C3_traversal (cfg : Snip.SnipSettings) (cwd : List String)
    (fs : List String → Option Snip.FileData) (repoId relPath : String)
    (start stop : Int) (ctx maxChars : Option Int)
    (h : leadsWith (Snip.resolveAbs cwd (Snip.pyJoin cfg.reposDir repoId))
      (Snip.candidatePath cwd cfg.reposDir repoId relPath) = false) :
    Snip.extractSnippet cfg cwd fs repoId relPath start stop ctx maxChars =
      Except.error "Path traversal detected" := by
  unfold Snip.extractSnippet Snip.safeRepoPath
  rw [h]
  simp

/-- Witness for `C3_traversal`: `rel_path = "../../etc/passwd"` under root
`/srv/data/repos/r` resolves to `/srv/data/etc/passwd`, escaping the root,
and extraction returns the path-traversal error. -/
theorem C3_traversal_witness :
    leadsWith (Snip.resolveAbs ["srv"] (Snip.pyJoin Snip.exampleCfg.reposDir "r"))
      (Snip.candidatePath ["srv"] Snip.exampleCfg.reposDir "r" "../../etc/passwd") =
        false ∧
    Snip.extractSnippet Snip.exampleCfg ["srv"] Snip.exampleFs "r" "../../etc/passwd"
      1 1 none none = Except.error "Path traversal detected" := by
  refine ⟨by decide, ?_⟩
  exact C3_traversal Snip.exampleCfg ["srv"] Snip.exampleFs "r" "../../etc/passwd"
    1 1 none none (by decide)

/-- Claim C4, counterexample: the claim quantifies over ANY `start`; at
`start = 0` (with a three-line file, `end = 1`, `context_lines = 5`) the
extractor returns the window `(1, 3, ...)` — a non-none result — yet
`window_start = 1 > 0 = start`, violating `window_start ≤ start`. -/
theorem C4_window_counterexample :
    Snip.extractSnippet Snip.exampleCfg ["srv"] Snip.exampleFs "r" "f.py"
      0 1 (some 5) (some 1000) = Except.ok (some (1, 3, "a\nb\nc\n")) ∧
    ¬ ((1 : Int) ≤ 0) := by
  exact ⟨by decide, by decide⟩

/-- Claim C4, amended: whenever extraction returns a non-none window for a
citation with `1 ≤ start`, `end` within the file's line count, and a
non-negative effective `context_lines`, the window satisfies
`window_start ≤ start`, `window_end ≥ end` and `window_start ≥ 1`
(`window_start = max(1, start − context)`, `window_end = min(total_lines,
end + context)`).  The bounds `1 ≤ start` and `end ≤ total_lines` are what
the source's own callers provide (citation line ranges inside the file); for
out-of-range inputs the code still returns a window but the claimed
inequalities fail, as the counterexample shows. -/
theorem C4_window_amended (cfg : Snip.SnipSettings) (cwd : List String)
    (fs : List String → Option Snip.FileData) (repoId relPath : String)
    (start stop : Int) (ctx maxChars : Option Int) (p : List String)
    (f : Snip.FileData) (ws we : Int) (code : String)
    (hsafe : Snip.safeRepoPath cwd cfg.reposDir repoId relPath = Except.ok p)
    (hfs : fs p = some f)
    (hres : Snip.extractSnippet cfg cwd fs repoId relPath start stop ctx maxChars =
      Except.ok (some (ws, we, code)))
    (hstart : 1 ≤ start) (hstop : stop ≤ (f.lines.length : Int))
    (hctx : 0 ≤ Snip.orDefault ctx cfg.ctxDefault) :
    ws ≤ start ∧ stop ≤ we ∧ 1 ≤ ws := by
  unfold Snip.extractSnippet at hres
  simp only [hsafe, hfs] at hres
  have hres2 : Snip.extractFromFile cfg relPath f start stop ctx maxChars =
      Except.ok (some (ws, we, code)) := hres
  clear hres
  unfold Snip.extractFromFile at hres2
  split_ifs at hres2 with h1 h2 h3
  · exact absurd hres2 (by simp)
  · exact absurd hres2 (by simp)
  · exact absurd hres2 (by simp)
  · simp only [Except.ok.injEq, Option.some.injEq, Prod.mk.injEq] at hres2
    obtain ⟨hws, hwe, -⟩ := hres2
    refine ⟨?_, ?_, ?_⟩
    · rw [← hws]
      exact max_le hstart (by omega)
    · rw [← hwe]
      exact le_min hstop (by omega)
    · rw [← hws]
      exact le_max_left 1 _

/-- Witness for `C4_window_amended`: for `start = end = 2` with one context
line in the three-line file, the window is `(1, 3)` and the inequalities
hold. -/
theorem C4_window_amended_witness :
    Snip.safeRepoPath ["srv"] Snip.exampleCfg.reposDir "r" "f.py" =
      Except.ok ["srv", "data", "repos", "r", "f.py"] ∧
    Snip.extractSnippet Snip.exampleCfg ["srv"] Snip.exampleFs "r" "f.py"
      2 2 (some 1) (some 1000) = Except.ok (some (1, 3, "a\nb\nc\n")) ∧
    ((1 : Int) ≤ 2 ∧ (2 : Int) ≤ 3 ∧ (1 : Int) ≤ 1) := by
  refine ⟨by decide, by decide, ?_⟩
  exact C4_window_amended Snip.exampleCfg ["srv"] Snip.exampleFs "r" "f.py"
    2 2 (some 1) (some 1000) ["srv", "data", "repos", "r", "f.py"]
    Snip.exampleFile 1 3 "a\nb\nc\n" (by decide) (by decide) (by decide)
    (by decide) (by decide) (by decide)

theorem leadsWith_self_append {α : Type} [DecidableEq α] :
    ∀ (a b : List α), leadsWith a (a ++ b) = true := by
  intro a
  induction a with
  | nil => intro b; rfl
  | cons x xs ih => intro b; simp [leadsWith, ih]

theorem hasSubAux_of_leads (needle hay : List Char)
    (h : leadsWith needle hay = true) : hasSubAux needle hay = true := by
  cases hay with
  | nil => simpa [hasSubAux] using h
  | cons c t => simp [hasSubAux, h]

theorem hasSubAux_here (needle post : List Char) :
    hasSubAux needle (needle ++ post) = true :=
  hasSubAux_of_leads needle (needle ++ post) (leadsWith_self_append needle post)

theorem hasSubAux_there (needle : List Char) (c : Char) (t : List Char)
    (h : hasSubAux needle t = true) : hasSubAux needle (c :: t) = true := by
  unfold hasSubAux
  rw [h]
  simp

theorem hasSubAux_of_decomp (needle pre post hay : List Char)
    (h : hay = pre ++ needle ++ post) : hasSubAux needle hay = true := by
  subst h
  induction pre with
  | nil => simpa using hasSubAux_here needle post
  | cons c cs ih => simpa using hasSubAux_there needle c _ (by simpa using ih)

theorem Snip.pySlice_eval {α : Type} (l : List α) (a b : Int) (ha : 0 ≤ a)
    (hain : a ≤ l.length) (hb : 0 ≤ b) (hble : b ≤ l.length) :
    Snip.pySlice l a b = (l.take b.toNat).drop a.toNat := by
  simp only [Snip.pySlice]
  rw [if_neg (by omega), if_neg (by omega)]
  have h1 : (min b (l.length : Int)).toNat = b.toNat := by omega
  have h2 : (min a (l.length : Int)).toNat = a.toNat := by omega
  rw [h1, h2]

theorem Snip.pySlice_tail {α : Type} (l : List α) (t : Int) (ht : 0 < t)
    (htle : t ≤ l.length) :
    Snip.pySlice l (-t) (l.length) = l.drop (l.length - t.toNat) := by
  simp only [Snip.pySlice]
  rw [if_pos (by omega), if_neg (by omega)]
  have h1 : ((min (l.length : Int) (l.length : Int))).toNat = l.length := by omega
  have h2 : ((max (0 : Int) ((l.length : Int) + -t))).toNat = l.length - t.toNat := by
    omega
  rw [h1, h2, List.take_length]

/-- Claim C9: whenever the extracted window text exceeds `max_chars` (and the
effective budget is at least 1, as every configured budget is), the returned
code is exactly a prefix of `max_chars // 2` characters, the visible marker
`"\n...\n"`, and a suffix of `max_chars - max_chars // 2` characters of the
window — so its length is `max_chars + 5` and it contains the substring
`"..."`.  A 2000-character window with `max_chars = 200` yields 205 ≤ 210
characters (see the witness). -/
theorem C9_truncate (maxChars : Int) (block : String) (h1 : 1 ≤ maxChars)
    (h2 : maxChars < (block.data.length : Int)) :
    (Snip.truncateBlock maxChars block).data =
      block.data.take ((Int.fdiv maxChars 2).toNat) ++ "\n...\n".data ++
        block.data.drop
          (block.data.length - (maxChars - Int.fdiv maxChars 2).toNat) ∧
    (Snip.truncateBlock maxChars block).data.length = maxChars.toNat + 5 ∧
    strContains (Snip.truncateBlock maxChars block) "..." = true := by
  have hfd : Int.fdiv maxChars 2 = maxChars / 2 :=
    Int.fdiv_eq_ediv maxChars (by norm_num)
  have hA : (Snip.truncateBlock maxChars block).data =
      block.data.take ((Int.fdiv maxChars 2).toNat) ++ "\n...\n".data ++
        block.data.drop
          (block.data.length - (maxChars - Int.fdiv maxChars 2).toNat) := by
    unfold Snip.truncateBlock
    rw [if_pos h2]
    unfold Snip.pySliceStr
    rw [String.data_append, String.data_append]
    rw [Snip.pySlice_eval block.data 0 (Int.fdiv maxChars 2) le_rfl
      (by omega) (by rw [hfd]; omega) (by rw [hfd]; omega)]
    rw [Snip.pySlice_tail block.data (maxChars - Int.fdiv maxChars 2)
      (by rw [hfd]; omega) (by rw [hfd]; omega)]
    rfl
  have hm : ("\n...\n".data) = '\n' :: '.' :: '.' :: '.' :: ['\n'] := rfl
  have hn3 : ("...".data) = '.' :: '.' :: ['.'] := rfl
  refine ⟨hA, ?_, ?_⟩
  · rw [hA]
    simp only [List.length_append, List.length_take, List.length_drop, hm,
      List.length_cons, List.length_nil]
    rw [hfd]
    omega
  · unfold strContains
    rw [hA]
    refine hasSubAux_of_decomp "...".data
      (block.data.take ((Int.fdiv maxChars 2).toNat) ++ ['\n'])
      ('\n' :: block.data.drop
        (block.data.length - (maxChars - Int.fdiv maxChars 2).toNat)) _ ?_
    rw [hm, hn3]
    simp

/-- Witness for `C9_truncate`: a 2000-character window truncated with
`max_chars = 200` has exactly 205 ≤ 210 characters and contains "...". -/
theorem C9_truncate_witness :
    ((1 : Int) ≤ 200 ∧ (200 : Int) < (Snip.bigBlock.data.length : Int)) ∧
    (Snip.truncateBlock 200 Snip.bigBlock).data.length = 205 ∧
    205 ≤ 210 ∧
    strContains (Snip.truncateBlock 200 Snip.bigBlock) "..." = true := by
  have hlen : Snip.bigBlock.data.length = 2000 := by
    show (List.replicate 2000 'a').length = 2000
    exact List.length_replicate 2000 'a'
  have hbig : (200 : Int) < (Snip.bigBlock.data.length : Int) := by
    rw [hlen]; decide
  have h := C9_truncate 200 Snip.bigBlock (by decide) hbig
  exact ⟨⟨by decide, hbig⟩, by simpa using h.2.1, by decide, h.2.2⟩

/-- Claim C1 (evaluating the code at the failing input): with a persisted
sidecar recording dimension 384, an active embedder dimension of 1536, and a
perfectly readable persisted index, `_load_index` yields a FRESH EMPTY index
of the new dimension — construction succeeds and the persisted index is
dropped.  The mismatch `ValueError` of lines 116-120 (with its re-ingest
message) is swallowed by the function's own `except Exception` catch-all
(lines 124-126), so the fatal, user-actionable error the spec mandates never
surfaces. -/
theorem C1_load_mismatch_swallowed :
    VS1.loadIndex (some 384) 1536 (Except.ok { dim := 384, vecs := [[]] }) =
      VS1.createIndex 1536 ∧
    (VS1.loadIndex (some 384) 1536 (Except.ok { dim := 384, vecs := [[]] })).vecs
      = [] ∧
    VS1.loadIndex (some 384) 1536 (Except.ok { dim := 384, vecs := [[]] }) ≠
      { dim := 384, vecs := [[]] } := by
  refine ⟨rfl, rfl, by decide⟩

theorem VS2.mem_insertRanked (a b : Nat × Rat) (l : List (Nat × Rat)) :
    b ∈ VS2.insertRanked a l ↔ b = a ∨ b ∈ l := by
  induction l with
  | nil => simp [VS2.insertRanked]
  | cons c t ih =>
    unfold VS2.insertRanked
    split_ifs
    · simp [List.mem_cons]
    · simp only [List.mem_cons, ih]
      tauto

theorem VS2.mem_rankSort (l : List (Nat × Rat)) (a : Nat × Rat) :
    a ∈ VS2.rankSort l ↔ a ∈ l := by
  induction l with
  | nil => simp [VS2.rankSort]
  | cons c t ih =>
    show a ∈ VS2.insertRanked c (VS2.rankSort t) ↔ _
    rw [VS2.mem_insertRanked, ih]
    simp [List.mem_cons]

/-- Claim C10: `search` on a store whose index holds more rows than its
chunk list is total (the embedding is a function — no exception path
exists): every returned result count is at most `min k ntotal`; every
returned result comes from a row `i` valid in BOTH the index and the chunk
list, with its metadata read from `chunks[i]` and its score that row's inner
product — rows without a chunk entry are silently omitted; and the result
list can be strictly shorter than `min k ntotal` (third conjunct: a store
with one index row and no chunks). -/
theorem C10_search_robust :
    (∀ (s : VS2.Store2) (qn : List Rat) (k : Nat),
      (VS2.search s qn k).length ≤ min k s.index.length) ∧
    (∀ (s : VS2.Store2) (qn : List Rat) (k : Nat) (r : VS2.SearchResult),
      r ∈ VS2.search s qn k →
      ∃ i, i < s.chunks.length ∧ i < s.index.length ∧
        r = VS2.mkResult (s.chunks.getD i default)
          (VS2.dot qn (s.index.getD i []))) ∧
    (∃ (s : VS2.Store2) (qn : List Rat) (k : Nat),
      s.chunks.length < s.index.length ∧
      (VS2.search s qn k).length < min k s.index.length) := by
  refine ⟨?_, ?_, ?_⟩
  · intro s qn k
    unfold VS2.search
    split_ifs with h
    · simp [h]
    · exact le_trans (List.length_filterMap_le _ _) (List.length_take_le _ _)
  · intro s qn k r hr
    unfold VS2.search at hr
    split_ifs at hr with h
    · exact absurd hr (List.not_mem_nil r)
    · rcases List.mem_filterMap.mp hr with ⟨p, hp, hpr⟩
      have hps : p ∈ VS2.rankSort (VS2.scorePairs qn s.index) :=
        List.mem_of_mem_take hp
      have hpp : p ∈ VS2.scorePairs qn s.index :=
        (VS2.mem_rankSort _ _).mp hps
      unfold VS2.scorePairs at hpp
      rcases List.mem_map.mp hpp with ⟨i, hi, hpe⟩
      have hi2 : i < s.index.length := List.mem_range.mp hi
      rw [← hpe] at hpr
      split_ifs at hpr with hlt
      refine ⟨i, hlt, hi2, ?_⟩
      exact (Option.some.inj hpr).symm
  · refine ⟨VS2.orphanStore, [1], 1, by decide, by decide⟩

/-- Witness for `C10_search_robust`: a store with one chunk and one index
row returns that chunk's metadata from row 0. -/
theorem C10_search_robust_witness :
    (VS2.mkResult VS2.exampleChunk 0 ∈ VS2.search VS2.exampleStore [] 1) ∧
    (∃ i, i < VS2.exampleStore.chunks.length ∧ i < VS2.exampleStore.index.length ∧
      VS2.mkResult VS2.exampleChunk 0 =
        VS2.mkResult (VS2.exampleStore.chunks.getD i default)
          (VS2.dot [] (VS2.exampleStore.index.getD i []))) := by
  refine ⟨by decide, ?_⟩
  exact C10_search_robust.2.1 VS2.exampleStore [] 1 _ (by decide)

theorem VS1.expCatalog_cons (repoId : String) (base : Nat)
    (p : List VS1.ChunkRec × List (List Rat))
    (rest : List (List VS1.ChunkRec × List (List Rat))) :
    VS1.expCatalog repoId base (p :: rest) =
      if p.1 = [] ∨ p.2 = [] then VS1.expCatalog repoId base rest
      else (p.1.enum.map (fun q => VS1.mkEntry repoId q.2 (base + q.1) q.1)) ++
        VS1.expCatalog repoId (base + p.2.length) rest := rfl

theorem VS1.insertOrReplace_fresh (cat : List VS1.CatEntry) (e : VS1.CatEntry)
    (h : ∀ x ∈ cat, x.embeddingId ≠ e.embeddingId) :
    VS1.insertOrReplace cat e = cat ++ [e] := by
  unfold VS1.insertOrReplace
  congr 1
  rw [List.filter_eq_self]
  intro x hx
  simpa [bne_iff_ne] using h x hx

theorem VS1.foldl_insert_fresh (repoId : String) (base : Nat) :
    ∀ (l : List (Nat × VS1.ChunkRec)) (cat : List VS1.CatEntry),
      (∀ x ∈ cat, ∀ q ∈ l, x.embeddingId ≠ VS1.mkEmbeddingId q.2.contentHash q.1) →
      (l.map (fun q => VS1.mkEmbeddingId q.2.contentHash q.1)).Nodup →
      l.foldl (fun cat q =>
          VS1.insertOrReplace cat (VS1.mkEntry repoId q.2 (base + q.1) q.1)) cat =
        cat ++ l.map (fun q => VS1.mkEntry repoId q.2 (base + q.1) q.1) := by
  intro l
  induction l with
  | nil => intro cat _ _; simp
  | cons q0 t ih =>
    intro cat hfresh hnodup
    have hid : (VS1.mkEntry repoId q0.2 (base + q0.1) q0.1).embeddingId =
        VS1.mkEmbeddingId q0.2.contentHash q0.1 := rfl
    show t.foldl _ (VS1.insertOrReplace cat (VS1.mkEntry repoId q0.2 (base + q0.1) q0.1)) = _
    rw [VS1.insertOrReplace_fresh cat _
      (fun x hx => by rw [hid]; exact hfresh x hx q0 (List.mem_cons_self q0 t))]
    rw [List.map_cons, List.nodup_cons] at hnodup
    rw [ih (cat ++ [VS1.mkEntry repoId q0.2 (base + q0.1) q0.1]) ?_ hnodup.2]
    · simp
    · intro x hx q hq
      rcases List.mem_append.mp hx with hx1 | hx2
      · exact hfresh x hx1 q (List.mem_cons_of_mem q0 hq)
      · rcases List.mem_singleton.mp hx2 with rfl
        rw [hid]
        intro hc
        exact hnodup.1 (hc ▸ List.mem_map_of_mem (fun q => VS1.mkEmbeddingId q.2.contentHash q.1) hq)

theorem VS1.runAdds_spec (repoId : String) :
    ∀ (calls : List (List VS1.ChunkRec × List (List Rat))) (s : VS1.Store),
      ((s.catalog.map (fun e => e.embeddingId)) ++ VS1.callIds calls).Nodup →
      (VS1.runAdds s repoId calls).ntotal = s.ntotal + VS1.totalEmb calls ∧
      (VS1.runAdds s repoId calls).catalog =
        s.catalog ++ VS1.expCatalog repoId s.ntotal calls := by
  intro calls
  induction calls with
  | nil =>
    intro s _
    refine ⟨by simp [VS1.runAdds, VS1.totalEmb], by simp [VS1.runAdds, VS1.expCatalog]⟩
  | cons p rest ih =>
    intro s hnd
    have hrun : VS1.runAdds s repoId (p :: rest) =
        VS1.runAdds (VS1.addChunks s repoId p.1 p.2) repoId rest := rfl
    by_cases hskip : p.1 = [] ∨ p.2 = []
    · have haddeq : VS1.addChunks s repoId p.1 p.2 = s := by
        unfold VS1.addChunks
        rw [if_pos hskip]
      have hids : VS1.callIds (p :: rest) = VS1.callIds rest := by
        simp [VS1.callIds, hskip]
      rw [hids] at hnd
      have h := ih s hnd
      rw [hrun, haddeq]
      refine ⟨?_, ?_⟩
      · rw [h.1]
        simp [VS1.totalEmb, hskip]
      · rw [h.2, VS1.expCatalog_cons, if_pos hskip]
    · push_neg at hskip
      have hids : VS1.callIds (p :: rest) =
          (p.1.enum.map (fun q => VS1.mkEmbeddingId q.2.contentHash q.1)) ++
            VS1.callIds rest := by
        simp [VS1.callIds, hskip.1, hskip.2]
      rw [hids] at hnd
      rw [← List.append_assoc] at hnd
      have hnd2 := hnd
      rw [List.nodup_append] at hnd2
      have hndL : ((s.catalog.map (fun e => e.embeddingId)) ++
          p.1.enum.map (fun q => VS1.mkEmbeddingId q.2.contentHash q.1)).Nodup := hnd2.1
      have hndL2 := hndL
      rw [List.nodup_append] at hndL2
      have hcatadd : (VS1.addChunks s repoId p.1 p.2).catalog =
          s.catalog ++ p.1.enum.map (fun q => VS1.mkEntry repoId q.2 (s.ntotal + q.1) q.1) := by
        unfold VS1.addChunks
        rw [if_neg (by rintro (h | h); exacts [hskip.1 h, hskip.2 h])]
        exact VS1.foldl_insert_fresh repoId s.ntotal p.1.enum s.catalog
          (fun x hx q hq c => hndL2.2.2
            (List.mem_map_of_mem (fun e => e.embeddingId) hx)
            (by rw [c]; exact List.mem_map_of_mem _ hq)) hndL2.2.1
      have hntadd : (VS1.addChunks s repoId p.1 p.2).ntotal = s.ntotal + p.2.length := by
        unfold VS1.addChunks
        rw [if_neg (by rintro (h | h); exacts [hskip.1 h, hskip.2 h])]
      have hidmap : (VS1.addChunks s repoId p.1 p.2).catalog.map (fun e => e.embeddingId) =
          (s.catalog.map (fun e => e.embeddingId)) ++
            p.1.enum.map (fun q => VS1.mkEmbeddingId q.2.contentHash q.1) := by
        rw [hcatadd, List.map_append, List.map_map]
        rfl
      have h := ih (VS1.addChunks s repoId p.1 p.2) (by rw [hidmap]; exact hnd)
      rw [hrun]
      refine ⟨?_, ?_⟩
      · rw [h.1, hntadd]
        have : VS1.totalEmb (p :: rest) = p.2.length + VS1.totalEmb rest := by
          simp [VS1.totalEmb, hskip.1, hskip.2]
        omega
      · rw [h.2, hcatadd, hntadd]
        have hexp : VS1.expCatalog repoId s.ntotal (p :: rest) =
            (p.1.enum.map (fun q => VS1.mkEntry repoId q.2 (s.ntotal + q.1) q.1)) ++
              VS1.expCatalog repoId (s.ntotal + p.2.length) rest := by
          rw [VS1.expCatalog_cons,
            if_neg (by rintro (h | h); exacts [hskip.1 h, hskip.2 h])]
        rw [hexp, List.append_assoc]

theorem VS1.effChunks_len (calls : List (List VS1.ChunkRec × List (List Rat)))
    (h1 : ∀ p ∈ calls, (p.1).length = (p.2).length) :
    (VS1.effChunks calls).length = VS1.totalEmb calls := by
  induction calls with
  | nil => rfl
  | cons p rest ih =>
    have ih2 := ih (fun q hq => h1 q (List.mem_cons_of_mem p hq))
    have hce : VS1.effChunks (p :: rest) =
        (if p.1 = [] ∨ p.2 = [] then [] else p.1) ++ VS1.effChunks rest := rfl
    have hct : VS1.totalEmb (p :: rest) =
        (if p.1 = [] ∨ p.2 = [] then 0 else p.2.length) + VS1.totalEmb rest := rfl
    rw [hce, hct, List.length_append, ih2]
    by_cases hskip : p.1 = [] ∨ p.2 = []
    · rw [if_pos hskip, if_pos hskip]
      simp
    · rw [if_neg hskip, if_neg hskip, h1 p (List.mem_cons_self p rest)]

theorem VS1.expCatalog_rowlist (repoId : String) :
    ∀ (calls : List (List VS1.ChunkRec × List (List Rat))) (base : Nat),
      (∀ p ∈ calls, (p.1).length = (p.2).length) →
      (VS1.expCatalog repoId base calls).map (fun e => e.faissRow) =
        List.range' base (VS1.totalEmb calls) := by
  intro calls
  induction calls with
  | nil => intro base _; rfl
  | cons p rest ih =>
    intro base h1
    rw [VS1.expCatalog_cons]
    split_ifs with hskip
    · rw [ih base (fun q hq => h1 q (List.mem_cons_of_mem p hq))]
      have : VS1.totalEmb (p :: rest) = VS1.totalEmb rest := by
        simp [VS1.totalEmb, hskip]
      rw [this]
    · push_neg at hskip
      rw [List.map_append, ih (base + p.2.length)
        (fun q hq => h1 q (List.mem_cons_of_mem p hq))]
      have hlen := h1 p (List.mem_cons_self p rest)
      have hrows : (p.1.enum.map
          (fun q => VS1.mkEntry repoId q.2 (base + q.1) q.1)).map
            (fun e => e.faissRow) = List.range' base p.1.length := by
        rw [List.map_map]
        have h3 : ((fun (e : VS1.CatEntry) => e.faissRow) ∘
            (fun (q : Nat × VS1.ChunkRec) => VS1.mkEntry repoId q.2 (base + q.1) q.1)) =
            (fun (q : Nat × VS1.ChunkRec) => base + q.1) := rfl
        rw [h3]
        have h2 : (fun (q : Nat × VS1.ChunkRec) => base + q.1) =
            ((fun n => base + n) ∘ Prod.fst) := rfl
        rw [h2, ← List.map_map, List.enum_map_fst, ← List.range'_eq_map_range]
      rw [hrows, hlen]
      have : VS1.totalEmb (p :: rest) = p.2.length + VS1.totalEmb rest := by
        simp [VS1.totalEmb, hskip.1, hskip.2]
      rw [this, List.range'_append_1]
      congr 1
      omega

theorem VS1.recordsB_mkEntry (repoId : String) (c : VS1.ChunkRec) (r i : Nat) :
    VS1.recordsB (VS1.mkEntry repoId c r i) c = true := by
  simp [VS1.recordsB, VS1.mkEntry]

theorem VS1.expCatalog_entry (repoId : String) :
    ∀ (calls : List (List VS1.ChunkRec × List (List Rat))) (base : Nat),
      (∀ p ∈ calls, (p.1).length = (p.2).length) →
      ∀ j : Nat, j < VS1.totalEmb calls →
      ((VS1.expCatalog repoId base calls).getD j default).faissRow = base + j ∧
      VS1.recordsB ((VS1.expCatalog repoId base calls).getD j default)
        ((VS1.effChunks calls).getD j default) = true := by
  intro calls
  induction calls with
  | nil =>
    intro base _ j hj
    simp [VS1.totalEmb] at hj
  | cons p rest ih =>
    intro base h1 j hj
    have h1r : ∀ q ∈ rest, (q.1).length = (q.2).length :=
      fun q hq => h1 q (List.mem_cons_of_mem p hq)
    by_cases hskip : p.1 = [] ∨ p.2 = []
    · have he : VS1.expCatalog repoId base (p :: rest) =
          VS1.expCatalog repoId base rest := by
        rw [VS1.expCatalog_cons, if_pos hskip]
      have hc : VS1.effChunks (p :: rest) = VS1.effChunks rest := by
        simp [VS1.effChunks, hskip]
      have ht : VS1.totalEmb (p :: rest) = VS1.totalEmb rest := by
        simp [VS1.totalEmb, hskip]
      rw [he, hc]
      exact ih base h1r j (by omega)
    · push_neg at hskip
      have hlen := h1 p (List.mem_cons_self p rest)
      have hnotor : ¬ (p.1 = [] ∨ p.2 = []) := by
        rintro (h | h)
        exacts [hskip.1 h, hskip.2 h]
      have he : VS1.expCatalog repoId base (p :: rest) =
          (p.1.enum.map (fun q => VS1.mkEntry repoId q.2 (base + q.1) q.1)) ++
            VS1.expCatalog repoId (base + p.2.length) rest := by
        rw [VS1.expCatalog_cons, if_neg hnotor]
      have hc : VS1.effChunks (p :: rest) = p.1 ++ VS1.effChunks rest := by
        simp [VS1.effChunks, hskip.1, hskip.2]
      have ht : VS1.totalEmb (p :: rest) = p.2.length + VS1.totalEmb rest := by
        simp [VS1.totalEmb, hskip.1, hskip.2]
      have hmlen : (p.1.enum.map
          (fun q => VS1.mkEntry repoId q.2 (base + q.1) q.1)).length = p.1.length := by
        simp
      rw [he, hc]
      by_cases hjl : j < p.1.length
      · rw [List.getD_append _ _ _ _ (by rw [hmlen]; exact hjl),
          List.getD_append _ _ _ _ hjl]
        have hje : j < p.1.enum.length := by simpa using hjl
        rw [List.getD_eq_getElem _ _ (by rw [hmlen]; exact hjl),
          List.getD_eq_getElem _ _ hjl]
        rw [List.getElem_map]
        rw [List.getElem_enum]
        exact ⟨rfl, VS1.recordsB_mkEntry repoId _ _ _⟩
      · push_neg at hjl
        rw [List.getD_append_right _ _ _ _ (by rw [hmlen]; exact hjl),
          List.getD_append_right _ _ _ _ hjl, hmlen]
        have hrec := ih (base + p.2.length) h1r (j - p.1.length)
          (by rw [ht] at hj; omega)
        refine ⟨?_, hrec.2⟩
        rw [hrec.1]
        omega

/-- Claim C2, counterexample: two successive `add_chunks` calls each adding
one chunk with the SAME content hash "h" produce colliding embedding ids
("h_0" both times, the ordinal being the within-call index), so the second
call's INSERT OR REPLACE overwrites the first call's catalog row, moving its
`faiss_row` from 0 to 1: the index then holds 2 vectors but NO catalog entry
has `faiss_row = 0`. -/
theorem C2_addChunks_counterexample :
    (VS1.runAdds VS1.emptyStore "r"
      [([VS1.sampleChunk "h"], [[]]), ([VS1.sampleChunk "h"], [[]])]).ntotal = 2 ∧
    ((VS1.runAdds VS1.emptyStore "r"
      [([VS1.sampleChunk "h"], [[]]), ([VS1.sampleChunk "h"], [[]])]).catalog.filter
        (fun e => e.faissRow == 0)).length = 0 := by
  exact ⟨rfl, rfl⟩

/-- Claim C2, amended: after any sequence of `add_chunks` calls in which
each call passes as many chunks as embeddings AND no two calls collide on an
`(content_hash, within-call position)` pair — in particular whenever all
content hashes are distinct — every row `i < ntotal` has exactly one catalog
entry with `faiss_row = i`, and that entry records the chunk that was the
i-th vector added in insertion order.  What the claim loses is only the case
of colliding `(content_hash, position)` pairs ACROSS calls, where the
`INSERT OR REPLACE` on the id `f"{content_hash}_{i}"` (with `i` the
within-call index) overwrites the earlier row, as the counterexample
shows. -/
theorem C2_addChunks_amended (repoId : String)
    (calls : List (List VS1.ChunkRec × List (List Rat)))
    (h1 : ∀ p ∈ calls, (p.1).length = (p.2).length)
    (h2 : (VS1.callIds calls).Nodup) :
    (VS1.runAdds VS1.emptyStore repoId calls).ntotal =
      (VS1.effChunks calls).length ∧
    ∀ i < (VS1.runAdds VS1.emptyStore repoId calls).ntotal,
      ((VS1.runAdds VS1.emptyStore repoId calls).catalog.filter
        (fun e => e.faissRow == i)).length = 1 ∧
      ∀ e ∈ (VS1.runAdds VS1.emptyStore repoId calls).catalog,
        e.faissRow = i →
          VS1.recordsB e ((VS1.effChunks calls).getD i default) = true := by
  have hspec := VS1.runAdds_spec repoId calls VS1.emptyStore
    (by simpa [VS1.emptyStore] using h2)
  obtain ⟨htot, hcat⟩ := hspec
  have htot2 : (VS1.runAdds VS1.emptyStore repoId calls).ntotal =
      VS1.totalEmb calls := by
    rw [htot]
    simp [VS1.emptyStore]
  have hcat2 : (VS1.runAdds VS1.emptyStore repoId calls).catalog =
      VS1.expCatalog repoId 0 calls := by
    rw [hcat]
    simp [VS1.emptyStore]
  have hrows := VS1.expCatalog_rowlist repoId calls 0 h1
  refine ⟨by rw [htot2, VS1.effChunks_len calls h1], ?_⟩
  intro i hi
  have hi2 : i < VS1.totalEmb calls := by rw [← htot2]; exact hi
  constructor
  · rw [hcat2]
    rw [← List.countP_eq_length_filter]
    have hcm : List.countP (fun e => e.faissRow == i)
        (VS1.expCatalog repoId 0 calls) =
        List.countP (fun r => r == i)
          ((VS1.expCatalog repoId 0 calls).map (fun e => e.faissRow)) := by
      rw [List.countP_map]
      rfl
    rw [hcm, hrows]
    have hmem : i ∈ List.range' 0 (VS1.totalEmb calls) := by
      rw [List.mem_range'_1]
      omega
    exact List.count_eq_one_of_mem (List.nodup_range' 0 (VS1.totalEmb calls)) hmem
  · intro e he hrow
    rw [hcat2] at he
    obtain ⟨j, hj, hje⟩ := List.getElem_of_mem he
    have hlen : (VS1.expCatalog repoId 0 calls).length = VS1.totalEmb calls := by
      have := congrArg List.length hrows
      simpa using this
    have hent := VS1.expCatalog_entry repoId calls 0 h1 j (by rw [← hlen]; exact hj)
    have hgd : (VS1.expCatalog repoId 0 calls).getD j default = e := by
      rw [List.getD_eq_getElem _ _ hj]
      exact hje
    rw [hgd] at hent
    have hij : j = i := by
      have h3 := hent.1
      rw [hrow] at h3
      omega
    rw [← hij]
    exact hent.2

/-- Witness for `C2_addChunks_amended`: two calls with distinct hashes "a"
and "b" yield rows 0 and 1, each with exactly one catalog entry recording
the corresponding chunk. -/
theorem C2_addChunks_amended_witness :
    (∀ p ∈ [([VS1.sampleChunk "a"], [[]]), ([VS1.sampleChunk "b"], [[]])],
      ((p : List VS1.ChunkRec × List (List Rat)).1).length = (p.2).length) ∧
    (VS1.callIds [([VS1.sampleChunk "a"], [[]]),
      ([VS1.sampleChunk "b"], [[]])]).Nodup ∧
    ∀ i < (VS1.runAdds VS1.emptyStore "r"
        [([VS1.sampleChunk "a"], [[]]), ([VS1.sampleChunk "b"], [[]])]).ntotal,
      ((VS1.runAdds VS1.emptyStore "r"
        [([VS1.sampleChunk "a"], [[]]), ([VS1.sampleChunk "b"], [[]])]).catalog.filter
          (fun e => e.faissRow == i)).length = 1 ∧
      ∀ e ∈ (VS1.runAdds VS1.emptyStore "r"
          [([VS1.sampleChunk "a"], [[]]), ([VS1.sampleChunk "b"], [[]])]).catalog,
        e.faissRow = i →
          VS1.recordsB e
            ((VS1.effChunks [([VS1.sampleChunk "a"], [[]]),
              ([VS1.sampleChunk "b"], [[]])]).getD i default) = true := by
  refine ⟨by decide, by decide, ?_⟩
  exact (C2_addChunks_amended "r"
    [([VS1.sampleChunk "a"], [[]]), ([VS1.sampleChunk "b"], [[]])]
    (by decide) (by decide)).2

end CodeQA
